import Mathlib

/-!
Verification development for the LibRecommender matrix-factorization core.

The numerical layer of `src/libreco/algorithms/als.py` is embedded over `ℚ`
(exact arithmetic standing in for the float arithmetic of the source), the
prediction layer of `src/libreco/algorithms/als.py`, `src/libreco/algorithms/svd.py`
and `src/algorithms/BPR.py` over `ℝ` (the source applies the transcendental
sigmoid there).  A CSR row slice
`indices[indptr[m]:indptr[m+1]] / data[indptr[m]:indptr[m+1]]` is embedded as a
list of (column index, stored value) pairs, and the loops of the source as
folds over those lists.
-/

namespace LibRec

open Matrix

/-! ## ALS solver state (als.py) -/

/-- A latent-factor row vector with `f` factors, over exact arithmetic. -/
abbrev Vec (f : ℕ) := Fin f → ℚ

/-- A dense `f × f` normal-equations matrix. -/
abbrev Mat (f : ℕ) := Matrix (Fin f) (Fin f) ℚ

/-- One CSR row slice of the interaction matrix: the pairs
`(indices[i], data[i])` for `i` in `indptr[m] .. indptr[m+1]`. -/
abbrev CsrRow (n : ℕ) := List (Fin n × ℚ)

/-- `init_A = Y.T @ Y + reg * np.eye(embed_size)` from `_least_squares`
(als.py line 179), computed from the full matrix `Y`. -/
def initA {n f : ℕ} (Y : Matrix (Fin n) (Fin f) ℚ) (reg : ℚ) : Mat f :=
  Yᵀ * Y + reg • 1

/-- The per-row normal-equations matrix of the implicit mode of
`_least_squares` (als.py lines 181-187): start from a copy of `init_A` and add
`(confidence - 1) * np.outer(factor, factor)` for every neighbor of row `m`. -/
def implicitA {n f : ℕ} (Y : Matrix (Fin n) (Fin f) ℚ) (reg : ℚ)
    (row : CsrRow n) : Mat f :=
  row.foldl
    (fun A ic => A + (ic.2 - 1) • Matrix.vecMulVec (Y ic.1) (Y ic.1))
    (initA Y reg)

/-- The per-row right-hand side of the implicit mode of `_least_squares`
(als.py lines 182-188): start from zero and add `confidence * factor` for
every neighbor of row `m`. -/
def implicitB {n f : ℕ} (Y : Matrix (Fin n) (Fin f) ℚ) (row : CsrRow n) :
    Vec f :=
  row.foldl (fun b ic => b + ic.2 • Y ic.1) 0

/-- `np.linalg.solve(A, b)` embedded by Cramer's rule: for an invertible `A`
this is the unique solution of `A x = b`. -/
def solveLin {f : ℕ} (A : Mat f) (b : Vec f) : Vec f :=
  A.det⁻¹ • (A.adjugate *ᵥ b)

/-- The value assigned to `X[m]` by the implicit mode of `_least_squares`
(als.py line 189). -/
def leastSquaresImplicitRow {n f : ℕ} (Y : Matrix (Fin n) (Fin f) ℚ)
    (reg : ℚ) (row : CsrRow n) : Vec f :=
  solveLin (implicitA Y reg row) (implicitB Y row)

/-- The per-row normal-equations matrix of the explicit mode of
`_least_squares` (als.py line 175): `interacted.T @ interacted + reg * I`,
built only from the neighbors of row `m`. -/
def explicitA {n f : ℕ} (Y : Matrix (Fin n) (Fin f) ℚ) (reg : ℚ)
    (row : CsrRow n) : Mat f :=
  row.foldl
    (fun A ic => A + Matrix.vecMulVec (Y ic.1) (Y ic.1))
    (reg • 1)

/-- The per-row right-hand side of the explicit mode of `_least_squares`
(als.py line 176): `interacted.T @ labels`. -/
def explicitB {n f : ℕ} (Y : Matrix (Fin n) (Fin f) ℚ) (row : CsrRow n) :
    Vec f :=
  row.foldl (fun b ic => b + ic.2 • Y ic.1) 0

/-- The value assigned to `X[m]` by the explicit mode of `_least_squares`
(als.py line 177). -/
def leastSquaresExplicitRow {n f : ℕ} (Y : Matrix (Fin n) (Fin f) ℚ)
    (reg : ℚ) (row : CsrRow n) : Vec f :=
  solveLin (explicitA Y reg row) (explicitB Y row)

/-- The two valid `mode` strings of `_least_squares`; any other string raises
a `ValueError` in the source and is not reachable from `ALS.fit`. -/
inductive LsMode
  | explicitMode
  | implicitMode

/-- The value assigned to `X[m]` by `_least_squares` in either mode. -/
def leastSquaresRow {n f : ℕ} (mode : LsMode) (Y : Matrix (Fin n) (Fin f) ℚ)
    (reg : ℚ) (row : CsrRow n) : Vec f :=
  match mode with
  | .explicitMode => leastSquaresExplicitRow Y reg row
  | .implicitMode => leastSquaresImplicitRow Y reg row

/-- One pass of `_least_squares` over the rows listed in `order`
(the source iterates `for m in range(num)`; `order` generalizes the iteration
order so that order independence can be stated).  Each visited row `m` gets
`X[m]` overwritten with the row solution computed from `Y` and row `m`'s
neighbor slice `nb m`. -/
def leastSquaresPass {n f : ℕ} (mode : LsMode) (Y : Matrix (Fin n) (Fin f) ℚ)
    (reg : ℚ) (nb : ℕ → CsrRow n) (order : List ℕ) (X : ℕ → Vec f) :
    ℕ → Vec f :=
  order.foldl
    (fun X' m => Function.update X' m (leastSquaresRow mode Y reg (nb m))) X

/-- Folding additive contributions over a list equals the start value plus the
sum of the mapped list. -/
theorem foldl_add_eq_add_sum {α M : Type*} [AddCommMonoid M] (g : α → M) :
    ∀ (l : List α) (a : M),
      l.foldl (fun x y => x + g y) a = a + (l.map g).sum := by
  intro l
  induction l with
  | nil => intro a; simp
  | cons x xs ih =>
      intro a
      simp only [List.foldl_cons, List.map_cons, List.sum_cons, ih, add_assoc]

/-- **C1.** In implicit-mode ALS, for every row `m` of the solve-for matrix,
the solver assigns to `X[m]` the solution of the linear system `A x = b`,
where `A = A0 + Σ_i (confidence_i - 1) · outer(y_i, y_i)` over the neighbors
of row `m`, `b = Σ_i confidence_i · y_i`, and `A0 = Yᵀ Y + reg·I` is computed
from the full matrix `Y` (not restricted to row `m`'s neighbors). -/
theorem als_implicit_normal_equations {n f : ℕ}
    (Y : Matrix (Fin n) (Fin f) ℚ) (reg : ℚ) (row : CsrRow n)
    (h : IsUnit (implicitA Y reg row).det) :
    implicitA Y reg row *ᵥ leastSquaresImplicitRow Y reg row
        = implicitB Y row
      ∧ implicitA Y reg row
        = initA Y reg
          + (row.map
              (fun ic => (ic.2 - 1) • Matrix.vecMulVec (Y ic.1) (Y ic.1))).sum
      ∧ implicitB Y row = (row.map (fun ic => ic.2 • Y ic.1)).sum := by
  refine ⟨?_, ?_, ?_⟩
  · have hd : (implicitA Y reg row).det ≠ 0 := h.ne_zero
    rw [leastSquaresImplicitRow, solveLin, Matrix.mulVec_smul,
      Matrix.mulVec_mulVec, Matrix.mul_adjugate, Matrix.smul_mulVec_assoc,
      Matrix.one_mulVec, smul_smul, inv_mul_cancel₀ hd, one_smul]
  · rw [implicitA, foldl_add_eq_add_sum]
  · rw [implicitB, foldl_add_eq_add_sum, zero_add]

/-- A concrete 1-factor instance for the solver theorems. -/
def Yone : Matrix (Fin 1) (Fin 1) ℚ :=
  Matrix.of fun _ _ => 1

/-- A concrete single-neighbor CSR row with confidence 3. -/
def rowOne : CsrRow 1 := [(0, 3)]

/-- Witness for `als_implicit_normal_equations` at a concrete invertible
instance. -/
theorem als_implicit_normal_equations_witness :
    implicitA Yone 1 rowOne *ᵥ leastSquaresImplicitRow Yone 1 rowOne
      = implicitB Yone rowOne := by
  have hdet : (implicitA Yone 1 rowOne).det = 4 := by
    rw [Matrix.det_fin_one]
    simp [implicitA, initA, Yone, rowOne, Matrix.vecMulVec_apply,
      Matrix.add_apply, Matrix.smul_apply, Matrix.mul_apply,
      Matrix.transpose_apply, Matrix.one_apply, Fin.sum_univ_one]
    norm_num
  exact (als_implicit_normal_equations Yone 1 rowOne
    (by rw [hdet]; exact isUnit_iff_ne_zero.mpr (by norm_num))).1

/-- Rows not visited by a pass keep their previous value. -/
theorem leastSquaresPass_notMem {n f : ℕ} (mode : LsMode)
    (Y : Matrix (Fin n) (Fin f) ℚ) (reg : ℚ) (nb : ℕ → CsrRow n) (m : ℕ) :
    ∀ (order : List ℕ) (X : ℕ → Vec f), m ∉ order →
      leastSquaresPass mode Y reg nb order X m = X m := by
  intro order
  induction order with
  | nil => intro X _; rfl
  | cons a l ih =>
      intro X hm
      rw [List.mem_cons, not_or] at hm
      simp only [leastSquaresPass, List.foldl_cons] at ih ⊢
      rw [ih _ hm.2, Function.update_noteq hm.1]

/-- Every row visited by a pass ends at its own solve, whatever else the pass
visits. -/
theorem leastSquaresPass_mem {n f : ℕ} (mode : LsMode)
    (Y : Matrix (Fin n) (Fin f) ℚ) (reg : ℚ) (nb : ℕ → CsrRow n) (m : ℕ) :
    ∀ (order : List ℕ) (X : ℕ → Vec f), m ∈ order →
      leastSquaresPass mode Y reg nb order X m
        = leastSquaresRow mode Y reg (nb m) := by
  intro order
  induction order with
  | nil => intro X hm; cases hm
  | cons a l ih =>
      intro X hm
      simp only [leastSquaresPass, List.foldl_cons] at ih ⊢
      by_cases hl : m ∈ l
      · exact ih _ hl
      · have ha : m = a := by
          rcases List.mem_cons.mp hm with h | h
          · exact h
          · exact absurd h hl
        subst ha
        have hnm := leastSquaresPass_notMem mode Y reg nb m l
          (Function.update X m (leastSquaresRow mode Y reg (nb m))) hl
        simp only [leastSquaresPass] at hnm
        rw [hnm, Function.update_same]

/-- **C8.** For every interaction matrix and every permutation of the order in
which rows are processed, one pass of the direct ALS solver gives every row
the same solution as the in-order pass: each row's result depends only on the
fixed matrix `Y` and that row's own neighbor slice, not on the iteration
order. -/
theorem als_row_order_independent {n f : ℕ} (mode : LsMode)
    (Y : Matrix (Fin n) (Fin f) ℚ) (reg : ℚ) (nb : ℕ → CsrRow n) (num : ℕ)
    (order : List ℕ) (X : ℕ → Vec f) (m : ℕ)
    (hperm : order.Perm (List.range num)) (hm : m < num) :
    leastSquaresPass mode Y reg nb order X m
      = leastSquaresRow mode Y reg (nb m) :=
  leastSquaresPass_mem mode Y reg nb m order X
    (hperm.mem_iff.mpr (List.mem_range.mpr hm))

/-- A concrete neighbor table for the pass witness. -/
def nbOne : ℕ → CsrRow 1 := fun _ => [(0, 2)]

/-- Witness for `als_row_order_independent`: processing rows in the order
`[1, 0]` leaves row 0 at its own solve. -/
theorem als_row_order_independent_witness :
    leastSquaresPass LsMode.implicitMode Yone 1 nbOne [1, 0] (fun _ => 0) 0
      = leastSquaresRow LsMode.implicitMode Yone 1 (nbOne 0) :=
  als_row_order_independent LsMode.implicitMode Yone 1 nbOne 2 [1, 0]
    (fun _ => 0) 0 (by decide) (by decide)

/-! ## Conjugate-gradient variant (`_least_squares_cg`, implicit mode) -/

/-- The residual-squared floor `1e-10` of `_least_squares_cg` (als.py lines
221 and 236), as an exact rational. -/
def cgEps : ℚ := 1 / 10 ^ 10

/-- The initial residual of `_least_squares_cg` (als.py lines 212-217):
`r = -init_A @ x`, then `r += (confidence - (confidence - 1) * (y @ x)) * y`
for every neighbor. -/
def cgResidual {n f : ℕ} (A0 : Mat f) (Y : Matrix (Fin n) (Fin f) ℚ)
    (row : CsrRow n) (x : Vec f) : Vec f :=
  row.foldl
    (fun r ic => r + (ic.2 - (ic.2 - 1) * (Y ic.1 ⬝ᵥ x)) • Y ic.1)
    (-(A0 *ᵥ x))

/-- The matrix-vector product of `_least_squares_cg` (als.py lines 225-229):
`Ap = init_A @ p`, then `Ap += (confidence - 1) * (y @ p) * y` for every
neighbor. -/
def cgAp {n f : ℕ} (A0 : Mat f) (Y : Matrix (Fin n) (Fin f) ℚ)
    (row : CsrRow n) (p : Vec f) : Vec f :=
  row.foldl
    (fun ap ic => ap + ((ic.2 - 1) * (Y ic.1 ⬝ᵥ p)) • Y ic.1)
    (A0 *ᵥ p)

/-- The inner CG loop of `_least_squares_cg` (als.py lines 224-239), with the
remaining step budget as fuel.  Returns the final `x` together with the
number of loop iterations actually executed. -/
def cgLoop {n f : ℕ} (A0 : Mat f) (Y : Matrix (Fin n) (Fin f) ℚ)
    (row : CsrRow n) :
    ℕ → Vec f → Vec f → Vec f → ℚ → Vec f × ℕ
  | 0, x, _, _, _ => (x, 0)
  | fuel + 1, x, r, p, rsOld =>
      let Ap := cgAp A0 Y row p
      let ak := rsOld / (p ⬝ᵥ Ap)
      let x' := x + ak • p
      let r' := r - ak • Ap
      let rsNew := r' ⬝ᵥ r'
      if rsNew < cgEps then (x', 1)
      else
        let rest := cgLoop A0 Y row fuel x' r' (r' + (rsNew / rsOld) • p) rsNew
        (rest.1, rest.2 + 1)

/-- The per-row computation of the implicit mode of `_least_squares_cg`
(als.py lines 210-241): compute the residual at the current `X[m]`, skip the
row if its squared norm is already below the floor, otherwise run at most
`cgSteps` CG iterations.  Returns the new `X[m]` and the iteration count. -/
def leastSquaresCgRow {n f : ℕ} (A0 : Mat f) (Y : Matrix (Fin n) (Fin f) ℚ)
    (row : CsrRow n) (cgSteps : ℕ) (x0 : Vec f) : Vec f × ℕ :=
  let r := cgResidual A0 Y row x0
  let rsOld := r ⬝ᵥ r
  if rsOld < cgEps then (x0, 0)
  else cgLoop A0 Y row cgSteps x0 r r rsOld

/-- The CG loop never executes more iterations than its fuel. -/
theorem cgLoop_steps_le {n f : ℕ} (A0 : Mat f) (Y : Matrix (Fin n) (Fin f) ℚ)
    (row : CsrRow n) :
    ∀ (fuel : ℕ) (x r p : Vec f) (rs : ℚ),
      (cgLoop A0 Y row fuel x r p rs).2 ≤ fuel := by
  intro fuel
  induction fuel with
  | zero => intro x r p rs; simp [cgLoop]
  | succ k ih =>
      intro x r p rs
      simp only [cgLoop]
      split
      · exact Nat.succ_le_succ (Nat.zero_le k)
      · exact Nat.succ_le_succ (ih _ _ _ _)

/-- **C2.** Control flow of the implicit-mode CG variant, per row: (i) when
the initial squared residual is below `1e-10` the row is skipped entirely —
`X[m]` is returned unchanged with zero CG iterations; (ii) inside the loop,
once the updated squared residual falls below `1e-10` the loop exits early,
returning the same result whatever step budget remains; (iii) a row runs at
most the default 3 CG iterations. -/
theorem als_cg_control_flow {n f : ℕ} (A0 : Mat f)
    (Y : Matrix (Fin n) (Fin f) ℚ) (row : CsrRow n) :
    (∀ (k : ℕ) (x0 : Vec f),
        cgResidual A0 Y row x0 ⬝ᵥ cgResidual A0 Y row x0 < cgEps →
        leastSquaresCgRow A0 Y row k x0 = (x0, 0))
      ∧ (∀ (fuel : ℕ) (x r p : Vec f) (rs : ℚ),
          (r - (rs / (p ⬝ᵥ cgAp A0 Y row p)) • cgAp A0 Y row p) ⬝ᵥ
              (r - (rs / (p ⬝ᵥ cgAp A0 Y row p)) • cgAp A0 Y row p) < cgEps →
          cgLoop A0 Y row (fuel + 1) x r p rs = cgLoop A0 Y row 1 x r p rs)
      ∧ (∀ x0 : Vec f, (leastSquaresCgRow A0 Y row 3 x0).2 ≤ 3) := by
  refine ⟨?_, ?_, ?_⟩
  · intro k x0 h
    simp only [leastSquaresCgRow]
    rw [if_pos h]
  · intro fuel x r p rs h
    show cgLoop A0 Y row (fuel + 1) x r p rs = cgLoop A0 Y row (0 + 1) x r p rs
    simp only [cgLoop]
    rw [if_pos h, if_pos h]
  · intro x0
    simp only [leastSquaresCgRow]
    split
    · exact Nat.zero_le 3
    · exact cgLoop_steps_le A0 Y row 3 _ _ _ _

/-- Witness for `als_cg_control_flow`: a row with no neighbors and a zero
current solution has zero initial residual, so the CG solver skips it. -/
theorem als_cg_control_flow_witness :
    leastSquaresCgRow (initA Yone 1) Yone [] 3 (0 : Vec 1) = (0, 0) :=
  (als_cg_control_flow (initA Yone 1) Yone []).1 3 0
    (by norm_num [cgResidual, cgEps])

/-! ## BPR pairwise updates (src/algorithms/BPR.py) -/

/-- A latent-factor row over the reals (the prediction layer applies the
transcendental sigmoid, so this part of the embedding lives in `ℝ`). -/
abbrev RVec (f : ℕ) := Fin f → ℝ

/-- `np.dot` of two factor rows. -/
noncomputable def rdot {f : ℕ} (a b : RVec f) : ℝ := ∑ t, a t * b t

/-- The per-triple factor `sigmoid = 1.0 / (1.0 + np.exp(x_uij))` of
`BPR.fit` (BPR.py lines 39 and 67) — the non-negated exponent is intentional
in the source.  Modelled from the spec: the external sampler
(`utils/sampling.py`, not under `src/`) returns
`x_uij = pu[u]·qi[i] − pu[u]·qi[j]` computed from the current embeddings,
which is inlined here. -/
noncomputable def bprS {f : ℕ} (pu qi : ℕ → RVec f) (u i j : ℕ) : ℝ :=
  1 / (1 + Real.exp (rdot (pu u) (qi i) - rdot (pu u) (qi j)))

/-- One in-place BPR triple update (BPR.py lines 38-43, bootstrap, and 66-71,
sgd — the two bodies are identical).  The three `+=` statements execute
sequentially: the `pu[user]` update reads pre-update values, after which the
two `qi` updates read the already-updated `pu[user]`. -/
noncomputable def bprTripleStep {f : ℕ} (lr reg : ℝ) (pu qi : ℕ → RVec f)
    (u i j : ℕ) : (ℕ → RVec f) × (ℕ → RVec f) :=
  let s := bprS pu qi u i j
  let pu1 := Function.update pu u
    (fun t => pu u t + lr * (s * (qi i t - qi j t) + reg * pu u t))
  let qi1 := Function.update qi i
    (fun t => qi i t + lr * (s * pu1 u t + reg * qi i t))
  let qi2 := Function.update qi1 j
    (fun t => qi1 j t + lr * (s * (-(pu1 u t)) + reg * qi1 j t))
  (pu1, qi2)

/-- The all-ones user embedding of the concrete BPR instances. -/
noncomputable def puOne : ℕ → RVec 1 := fun _ _ => 1

/-- The all-zeros item embedding of the concrete BPR instances. -/
noncomputable def qiZero : ℕ → RVec 1 := fun _ _ => 0

/-- **C3 counterexample.**  The claim states that all three update
right-hand sides are computed from the pre-update embeddings.  With
`pu[u] = 1`, `qi ≡ 0`, `lr = reg = 1` and triple `(0, 0, 1)` we have
`x_uij = 0`, so `s = 1/2`; the code first raises `pu[u]` to `2` and then
sets `qi[i]` to `0 + 1·(s·2 + 0) = 1`, whereas the claimed simultaneous
update `qi[i] += lr·(s·pu[u] + reg·qi[i])` from pre-update values would give
`1/2`. -/
theorem bpr_simultaneous_update_counterexample :
    (bprTripleStep 1 1 puOne qiZero 0 0 1).2 0 0
      ≠ qiZero 0 0
        + 1 * (bprS puOne qiZero 0 0 1 * puOne 0 0 + 1 * qiZero 0 0) := by
  have hs : bprS puOne qiZero 0 0 1 = 1 / 2 := by
    simp [bprS, rdot, puOne, qiZero, Real.exp_zero]
    norm_num
  simp only [bprTripleStep, hs]
  simp [Function.update_apply, puOne, qiZero]

/-- **C3 (amended).** For every BPR training triple `(u, i, j)` with
`i ≠ j`, the update step computes `s = 1/(1+exp(x_uij))` with
`x_uij = pu[u]·qi[i] − pu[u]·qi[j]` from the pre-update embeddings and then
applies the three `+=` updates sequentially: `pu[u]` is updated from
pre-update values, after which the `qi[i]` and `qi[j]` updates use the
already-updated `pu[u]` (and pre-update `qi`).  All other rows are
untouched. -/
theorem bpr_update_sequential {f : ℕ} (lr reg : ℝ) (pu qi : ℕ → RVec f)
    (u i j : ℕ) (hij : i ≠ j) :
    (bprTripleStep lr reg pu qi u i j).1 u
        = (fun t => pu u t
            + lr * (bprS pu qi u i j * (qi i t - qi j t) + reg * pu u t))
      ∧ (bprTripleStep lr reg pu qi u i j).2 i
        = (fun t => qi i t
            + lr * (bprS pu qi u i j * (bprTripleStep lr reg pu qi u i j).1 u t
                + reg * qi i t))
      ∧ (bprTripleStep lr reg pu qi u i j).2 j
        = (fun t => qi j t
            + lr * (bprS pu qi u i j
                  * (-((bprTripleStep lr reg pu qi u i j).1 u t))
                + reg * qi j t))
      ∧ (∀ v, v ≠ u → (bprTripleStep lr reg pu qi u i j).1 v = pu v)
      ∧ (∀ w, w ≠ i → w ≠ j → (bprTripleStep lr reg pu qi u i j).2 w = qi w)
      := by
  refine ⟨?_, ?_, ?_, ?_, ?_⟩
  · simp [bprTripleStep]
  · simp [bprTripleStep, Function.update_apply, hij]
  · simp [bprTripleStep, Function.update_apply, hij, Ne.symm hij]
  · intro v hv
    simp [bprTripleStep, Function.update_apply, hv]
  · intro w hwi hwj
    simp [bprTripleStep, Function.update_apply, hwi, hwj]

/-- Witness for `bpr_update_sequential` at the concrete triple `(0, 0, 1)`. -/
theorem bpr_update_sequential_witness :
    (bprTripleStep 1 1 puOne qiZero 0 0 1).1 0
      = (fun t => puOne 0 t
          + 1 * (bprS puOne qiZero 0 0 1 * (qiZero 0 t - qiZero 1 t)
              + 1 * puOne 0 t)) :=
  (bpr_update_sequential 1 1 puOne qiZero 0 0 1 (by decide)).1

/-! ## BPR.fit dispatch and model state (src/algorithms/BPR.py) -/

/-- The mutable embedding attributes of a `BPR` object: `__init__` does not
create `pu`/`qi`, they first exist once `build_model` assigns them. -/
structure BPRModel (f : ℕ) where
  pu : Option (ℕ → RVec f)
  qi : Option (ℕ → RVec f)

/-- `BPR.build_model` (BPR.py lines 21-24).  Modelled from the spec: the
seeded `truncated_normal` initializer (`utils/initializers.py`, not under
`src/`) is passed in as `tn`, mapping a row count to the initial matrix. -/
def bprBuildModel {f : ℕ} (tn : ℕ → ℕ → RVec f) (nUsers nItems : ℕ)
    (_m : BPRModel f) : BPRModel f :=
  { pu := some (tn nUsers), qi := some (tn nItems) }

/-- One vectorized batch update (BPR.py lines 93-108).  The sigmoids are
computed from the pre-update embeddings; the fancy-indexed `+=` on `pu` runs
first (duplicate indices within one batch resolve last-write-wins), after
which the two `qi` updates read the already-updated `pu`. -/
noncomputable def bprBatchStep {f : ℕ} (lr reg : ℝ)
    (pq : (ℕ → RVec f) × (ℕ → RVec f)) (batch : List (ℕ × ℕ × ℕ)) :
    (ℕ → RVec f) × (ℕ → RVec f) :=
  let P := pq.1
  let Q := pq.2
  let s := fun t : ℕ × ℕ × ℕ => bprS P Q t.1 t.2.1 t.2.2
  let P1 := batch.foldl (fun P' t =>
    Function.update P' t.1 (fun c =>
      P t.1 c + lr * (s t * (Q t.2.1 c - Q t.2.2 c) + reg * P t.1 c))) P
  let Q1 := batch.foldl (fun Q' t =>
    Function.update Q' t.2.1 (fun c =>
      Q t.2.1 c + lr * (s t * P1 t.1 c + reg * Q t.2.1 c))) Q
  let Q2 := batch.foldl (fun Q' t =>
    Function.update Q' t.2.2 (fun c =>
      Q1 t.2.2 c + lr * (s t * (-(P1 t.1 c)) + reg * Q1 t.2.2 c))) Q1
  (P1, Q2)

/-- The scalar configuration of a `BPR` object (`__init__`, BPR.py lines
11-19) together with the dataset sizes it trains on; `trainSize` is
`len(dataset.train_user_indices)`. -/
structure BPRConfig where
  lr : ℝ
  reg : ℝ
  iteration : ℕ
  nEpochs : ℕ
  batchSize : ℕ
  trainSize : ℕ
  nUsers : ℕ
  nItems : ℕ

/-- `BPR.fit` (BPR.py lines 26-126).  `sam k` is the triple drawn by the
external `pairwise_sampling` collaborator (`utils/sampling.py`, not under
`src/`) at per-triple step `k`, and `samB b` the batch drawn at batch step
`b`; `bprS` recomputes the sampler's `x_uij` from the current embeddings as
the spec describes.  The returned `Option String` carries the `ValueError`
message of line 126, raised — as in the source, where line 33 runs first —
only after `build_model` has already reassigned `pu` and `qi`. -/
noncomputable def bprFit {f : ℕ} (cfg : BPRConfig) (tn : ℕ → ℕ → RVec f)
    (sam : ℕ → ℕ × ℕ × ℕ) (samB : ℕ → List (ℕ × ℕ × ℕ))
    (m : BPRModel f) (mode : String) : BPRModel f × Option String :=
  let built := bprBuildModel tn cfg.nUsers cfg.nItems m
  if mode = "bootstrap" then
    let R := (List.range cfg.iteration).foldl
      (fun pq k =>
        bprTripleStep cfg.lr cfg.reg pq.1 pq.2
          (sam k).1 (sam k).2.1 (sam k).2.2)
      (tn cfg.nUsers, tn cfg.nItems)
    ({ pu := some R.1, qi := some R.2 }, none)
  else if mode = "sgd" then
    let R := (List.range (cfg.nEpochs * cfg.trainSize)).foldl
      (fun pq k =>
        bprTripleStep cfg.lr cfg.reg pq.1 pq.2
          (sam k).1 (sam k).2.1 (sam k).2.2)
      (tn cfg.nUsers, tn cfg.nItems)
    ({ pu := some R.1, qi := some R.2 }, none)
  else if mode = "batch" then
    let R := (List.range (cfg.nEpochs * (cfg.trainSize / cfg.batchSize))).foldl
      (fun pq b => bprBatchStep cfg.lr cfg.reg pq (samB b))
      (tn cfg.nUsers, tn cfg.nItems)
    ({ pu := some R.1, qi := some R.2 }, none)
  else
    (built, some "Sampling Mode must be one of these: bootstrap, sgd, batch")

/-- A concrete all-sizes-one BPR configuration. -/
def bprCfgOne : BPRConfig :=
  { lr := 1, reg := 1, iteration := 1, nEpochs := 1, batchSize := 1,
    trainSize := 1, nUsers := 1, nItems := 1 }

/-- An all-zeros stand-in for the seeded initializer. -/
noncomputable def tnZero : ℕ → ℕ → RVec 1 := fun _ _ _ => 0

/-- A constant sampler for the concrete fit instances. -/
def samOne : ℕ → ℕ × ℕ × ℕ := fun _ => (0, 0, 1)

/-- A `BPR` object fresh out of `__init__`: no embeddings exist yet. -/
def emptyBPRModel : BPRModel 1 := { pu := none, qi := none }

/-- **C4 counterexample.**  Calling `fit` with the unrecognized mode
`"bogus"` does raise the `ValueError`, but not before `build_model` has
created `pu` and `qi`: starting from a model with no embeddings, the model
that raises has `pu ≠ none`, so the claimed "no partial state mutation"
fails. -/
theorem bpr_fit_invalid_mode_counterexample :
    ((bprFit bprCfgOne tnZero samOne (fun _ => []) emptyBPRModel
        "bogus").2).isSome = true
      ∧ (bprFit bprCfgOne tnZero samOne (fun _ => []) emptyBPRModel
          "bogus").1.pu ≠ emptyBPRModel.pu := by
  have hfit : bprFit bprCfgOne tnZero samOne (fun _ => []) emptyBPRModel
      "bogus"
      = (bprBuildModel tnZero 1 1 emptyBPRModel,
          some "Sampling Mode must be one of these: bootstrap, sgd, batch") := by
    simp only [bprFit]
    rw [if_neg (by decide), if_neg (by decide), if_neg (by decide)]
    rfl
  rw [hfit]
  refine ⟨rfl, ?_⟩
  simp [bprBuildModel, emptyBPRModel]

/-- **C4 (amended).** For every `sampling_mode` string not among
`"bootstrap"`, `"sgd"`, `"batch"`, `BPR.fit` raises the `ValueError` before
performing any training update, but only after `build_model` has already
(re)initialized the embedding matrices `pu` and `qi`: the model state at the
raise equals exactly the `build_model` output. -/
theorem bpr_fit_invalid_mode_raises_after_build {f : ℕ} (cfg : BPRConfig)
    (tn : ℕ → ℕ → RVec f) (sam : ℕ → ℕ × ℕ × ℕ)
    (samB : ℕ → List (ℕ × ℕ × ℕ)) (m : BPRModel f) (mode : String)
    (h1 : mode ≠ "bootstrap") (h2 : mode ≠ "sgd") (h3 : mode ≠ "batch") :
    bprFit cfg tn sam samB m mode
      = (bprBuildModel tn cfg.nUsers cfg.nItems m,
          some "Sampling Mode must be one of these: bootstrap, sgd, batch") := by
  simp only [bprFit]
  rw [if_neg h1, if_neg h2, if_neg h3]

/-- Witness for `bpr_fit_invalid_mode_raises_after_build` at the concrete
mode string `"unknown"`. -/
theorem bpr_fit_invalid_mode_raises_after_build_witness :
    bprFit bprCfgOne tnZero samOne (fun _ => []) emptyBPRModel "unknown"
      = (bprBuildModel tnZero 1 1 emptyBPRModel,
          some "Sampling Mode must be one of these: bootstrap, sgd, batch") :=
  bpr_fit_invalid_mode_raises_after_build bprCfgOne tnZero samOne
    (fun _ => []) emptyBPRModel "unknown"
    (by decide) (by decide) (by decide)

/-! ## Prediction layer (BPR.predict, ALS.predict, SVD.predict) -/

/-- numpy 1-D integer indexing into an array of `n` rows: indices in
`[-n, n)` are valid, negative ones count from the end; anything else raises
`IndexError`. -/
def npIndex (n : ℕ) (u : ℤ) : Option ℕ :=
  if -(n : ℤ) ≤ u ∧ u < (n : ℤ) then some ((u % (n : ℤ)).toNat) else none

/-- Out-of-range indices raise `IndexError`. -/
theorem npIndex_eq_none {n : ℕ} {u : ℤ}
    (h : (n : ℤ) ≤ u ∨ u < -(n : ℤ)) : npIndex n u = none := by
  simp only [npIndex]
  rw [if_neg (by omega)]

/-- Negative in-range indices address from the end of the array. -/
theorem npIndex_neg {n : ℕ} {u : ℤ} (h1 : -(n : ℤ) ≤ u) (h2 : u < 0) :
    npIndex n u = some (u + n).toNat := by
  have h3 := Int.add_mul_emod_self_left (a := u) (b := (n : ℤ)) (c := 1)
  rw [mul_one] at h3
  have hmod : u % (n : ℤ) = u + n := by
    rw [← h3, Int.emod_eq_of_lt (by omega) (by omega)]
  simp only [npIndex]
  rw [if_pos ⟨h1, by omega⟩, hmod]

/-- Nonnegative in-range indices address directly. -/
theorem npIndex_nonneg {n : ℕ} {u : ℤ} (h1 : 0 ≤ u) (h2 : u < (n : ℤ)) :
    npIndex n u = some u.toNat := by
  simp only [npIndex]
  rw [if_pos ⟨by omega, h2⟩, Int.emod_eq_of_lt h1 h2]

/-- The predict-time sigmoid `1 / (1 + np.exp(-x))` (BPR.py line 131,
als.py line 139, svd.py line 154). -/
noncomputable def sigmoid (x : ℝ) : ℝ := 1 / (1 + Real.exp (-x))

/-- The sigmoid output is strictly positive. -/
theorem sigmoid_pos (x : ℝ) : 0 < sigmoid x := by
  have := Real.exp_pos (-x)
  rw [sigmoid]
  positivity

/-- `BPR.predict` (BPR.py lines 128-135): dot the two rows, squash with the
sigmoid, threshold the probability at 0.5 for the label; an `IndexError`
from either lookup is caught and replaced by the `(0.0, 0.0)` default. -/
noncomputable def bprPredict {f : ℕ} (nUsers nItems : ℕ)
    (pu qi : ℕ → RVec f) (u i : ℤ) : ℝ × ℝ :=
  match npIndex nUsers u, npIndex nItems i with
  | some u', some i' =>
      let prob := sigmoid (rdot (pu u') (qi i'))
      (prob, if 0.5 ≤ prob then 1 else 0)
  | _, _ => (0, 0)

/-- The task tag `"rating"` / `"ranking"`. -/
inductive Task
  | rating
  | ranking

/-- `default_prediction` (als.py lines 58-62, svd.py lines 58-59): the global
mean for a rating task, `0.0` for a ranking task. -/
def defaultPrediction (task : Task) (globalMean : ℝ) : ℝ :=
  match task with
  | .rating => globalMean
  | .ranking => 0

/-- `ALS.predict` (als.py lines 118-144) for one (user, item) pair.
Modelled from the spec: `Base._check_unknown` (`base.py`, not under `src/`)
flags ids outside the trained vocabulary `[0, n)` as unknown; unknown pairs
receive `default_prediction` (als.py lines 141-142), known pairs the dot
product, clipped to the rating bounds (`np.clip`, line 136) or squashed by
the sigmoid (line 139). -/
noncomputable def alsPredict {f : ℕ} (nUsers nItems : ℕ)
    (userEmbed itemEmbed : ℕ → RVec f) (task : Task)
    (globalMean lowerBound upperBound : ℝ) (u i : ℕ) : ℝ :=
  if u < nUsers ∧ i < nItems then
    let p := rdot (userEmbed u) (itemEmbed i)
    match task with
    | .rating => min (max p lowerBound) upperBound
    | .ranking => sigmoid p
  else defaultPrediction task globalMean

/-- `SVD.predict` (svd.py lines 138-159) for one (user, item) pair: as
`ALS.predict` but with bias terms, and the global mean added before the
rating clip (line 152). -/
noncomputable def svdPredict {f : ℕ} (nUsers nItems : ℕ) (bu bi : ℕ → ℝ)
    (pu qi : ℕ → RVec f) (task : Task)
    (globalMean lowerBound upperBound : ℝ) (u i : ℕ) : ℝ :=
  if u < nUsers ∧ i < nItems then
    let p := bu u + bi i + rdot (pu u) (qi i)
    match task with
    | .rating => min (max (p + globalMean) lowerBound) upperBound
    | .ranking => sigmoid p
  else defaultPrediction task globalMean

/-- **C5 counterexample.**  The user id `-1` is outside the trained
vocabulary `[0, n_users)` of a 1-user model, yet `BPR.predict(-1, 0)` does
not return the `(0.0, 0.0)` default: numpy resolves `pu[-1]` to the last
row, and the returned probability is a strictly positive sigmoid value. -/
theorem bpr_predict_unknown_default_counterexample :
    bprPredict 1 1 puOne puOne (-1) 0 ≠ (0, 0) := by
  have h1 : npIndex 1 (-1) = some 0 := by decide
  have h2 : npIndex 1 (0 : ℤ) = some 0 := by decide
  have hpos := sigmoid_pos (rdot (puOne 0) (puOne 0))
  simp only [bprPredict, h1, h2, ne_eq, Prod.mk.injEq, not_and]
  intro hp
  exact absurd hp (ne_of_gt hpos)

/-- **C5 (amended).** Ids that fail numpy indexing (at or above the
vocabulary size, or below `-n`) make `BPR.predict` return the `(0.0, 0.0)`
default without raising, and `ALS.predict` returns its task-specific default
for ids outside `[0, n)`; BPR ids in `[-n, 0)`, however, index from the end
of the embedding matrices and do not receive the default (see
`bpr_predict_negative_indexing`). -/
theorem predict_unknown_fallback {f : ℕ} (nUsers nItems : ℕ)
    (pu qi uE iE : ℕ → RVec f) (task : Task) (gm lo up : ℝ) :
    (∀ u i : ℤ,
        (nUsers : ℤ) ≤ u ∨ u < -(nUsers : ℤ)
            ∨ (nItems : ℤ) ≤ i ∨ i < -(nItems : ℤ) →
        bprPredict nUsers nItems pu qi u i = (0, 0))
      ∧ (∀ u i : ℕ, ¬(u < nUsers ∧ i < nItems) →
          alsPredict nUsers nItems uE iE task gm lo up u i
            = defaultPrediction task gm) := by
  constructor
  · intro u i h
    rcases h with h | h | h | h
    · rcases hx : npIndex nItems i with _ | v <;>
        simp [bprPredict, npIndex_eq_none (Or.inl h), hx]
    · rcases hx : npIndex nItems i with _ | v <;>
        simp [bprPredict, npIndex_eq_none (Or.inr h), hx]
    · rcases hx : npIndex nUsers u with _ | v <;>
        simp [bprPredict, npIndex_eq_none (Or.inl h), hx]
    · rcases hx : npIndex nUsers u with _ | v <;>
        simp [bprPredict, npIndex_eq_none (Or.inr h), hx]
  · intro u i h
    simp only [alsPredict]
    rw [if_neg h]

/-- Witness for `predict_unknown_fallback`: user id 5 in a 1-user model. -/
theorem predict_unknown_fallback_witness :
    bprPredict 1 1 puOne puOne 5 0 = (0, 0) :=
  (predict_unknown_fallback 1 1 puOne puOne puOne puOne Task.ranking
    0 0 1).1 5 0 (Or.inl (by norm_num))

/-- **C10.** For every user id `u` with `-n_users ≤ u < 0` and known item
id, `BPR.predict(u, i)` does not take the unknown-entity fallback path:
numpy negative indexing succeeds, and the method returns the sigmoid
prediction computed from row `n_users + u` of `pu` — strictly positive, so
never the `(0.0, 0.0)` default. -/
theorem bpr_predict_negative_indexing {f : ℕ} (nUsers nItems : ℕ)
    (pu qi : ℕ → RVec f) (u i : ℤ)
    (hu1 : -(nUsers : ℤ) ≤ u) (hu2 : u < 0)
    (hi1 : 0 ≤ i) (hi2 : i < (nItems : ℤ)) :
    bprPredict nUsers nItems pu qi u i
      = (sigmoid (rdot (pu (u + nUsers).toNat) (qi i.toNat)),
          if 0.5 ≤ sigmoid (rdot (pu (u + nUsers).toNat) (qi i.toNat))
          then 1 else 0)
      ∧ 0 < (bprPredict nUsers nItems pu qi u i).1 := by
  have h1 := npIndex_neg hu1 hu2
  have h2 := npIndex_nonneg hi1 hi2
  constructor
  · simp only [bprPredict, h1, h2]
  · simp only [bprPredict, h1, h2]
    exact sigmoid_pos _

/-- Witness for `bpr_predict_negative_indexing` at user id `-1` of a 1-user
model. -/
theorem bpr_predict_negative_indexing_witness :
    bprPredict 1 1 puOne qiZero (-1) 0
      = (sigmoid (rdot (puOne ((-1 + (1 : ℕ)) : ℤ).toNat)
            (qiZero (0 : ℤ).toNat)),
          if 0.5 ≤ sigmoid (rdot (puOne ((-1 + (1 : ℕ)) : ℤ).toNat)
              (qiZero (0 : ℤ).toNat)) then 1 else 0)
      ∧ 0 < (bprPredict 1 1 puOne qiZero (-1) 0).1 :=
  bpr_predict_negative_indexing 1 1 puOne qiZero (-1) 0
    (by norm_num) (by norm_num) (le_refl 0) (by norm_num)

/-- **C9.** For a rating-task model with a well-formed bound pair, every
prediction returned for a known user and item lies in
`[lower_bound, upper_bound]`: both `ALS.predict` and `SVD.predict` clip the
raw score to the bounds before returning. -/
theorem rating_predict_within_bounds {f : ℕ} (nUsers nItems : ℕ)
    (uE iE pu qi : ℕ → RVec f) (bu bi : ℕ → ℝ) (gm lo up : ℝ) (u i : ℕ)
    (hu : u < nUsers) (hi : i < nItems) (hb : lo ≤ up) :
    (lo ≤ alsPredict nUsers nItems uE iE Task.rating gm lo up u i
        ∧ alsPredict nUsers nItems uE iE Task.rating gm lo up u i ≤ up)
      ∧ (lo ≤ svdPredict nUsers nItems bu bi pu qi Task.rating gm lo up u i
        ∧ svdPredict nUsers nItems bu bi pu qi Task.rating gm lo up u i
            ≤ up) := by
  have hknown : u < nUsers ∧ i < nItems := ⟨hu, hi⟩
  constructor
  · simp only [alsPredict, if_pos hknown]
    exact ⟨le_min (le_max_right _ _) hb, min_le_right _ _⟩
  · simp only [svdPredict, if_pos hknown]
    exact ⟨le_min (le_max_right _ _) hb, min_le_right _ _⟩

/-- Witness for `rating_predict_within_bounds` at a concrete 1-user,
1-item rating model with bounds `[1, 5]`. -/
theorem rating_predict_within_bounds_witness :
    (1 ≤ alsPredict 1 1 puOne qiZero Task.rating 3 1 5 0 0
        ∧ alsPredict 1 1 puOne qiZero Task.rating 3 1 5 0 0 ≤ 5)
      ∧ (1 ≤ svdPredict 1 1 (fun _ => 0) (fun _ => 0) puOne qiZero
            Task.rating 3 1 5 0 0
        ∧ svdPredict 1 1 (fun _ => 0) (fun _ => 0) puOne qiZero
            Task.rating 3 1 5 0 0 ≤ 5) :=
  rating_predict_within_bounds 1 1 puOne qiZero puOne qiZero
    (fun _ => 0) (fun _ => 0) 3 1 5 0 0
    (by norm_num) (by norm_num) (by norm_num)

/-! ## Recommendation queries (ALS.recommend_user, SVD.recommend_user) -/

/-- Insertion of one scored item into a descending-sorted list, for the
`sorted(..., key=lambda x: -x[1])` of `recommend_user`. -/
noncomputable def insertDesc (x : ℕ × ℝ) : List (ℕ × ℝ) → List (ℕ × ℝ)
  | [] => [x]
  | y :: ys => if y.2 < x.2 then x :: y :: ys else y :: insertDesc x ys

/-- Descending sort by score. -/
noncomputable def sortDesc (l : List (ℕ × ℝ)) : List (ℕ × ℝ) :=
  l.foldr insertDesc []

/-- `ALS.recommend_user` (als.py lines 146-163).  Modelled from the spec:
`Base._check_unknown_user` (`base.py`, not under `src/`) rejects user ids
outside `[0, n_users)`, on which the method executes the bare `return` of
line 149 — Python's `None`, embedded as `Option.none`, as opposed to the
`some` recommendation list of the known-user path.  `np.argpartition`'s
top-`count` selection followed by a full sort of that subset is embedded as
a full descending sort followed by `take count` (tie order is not specified
by the source). -/
noncomputable def alsRecommendUser {f : ℕ} (nUsers nItemsTotal : ℕ)
    (consumed : ℕ → List ℕ) (userEmbed itemEmbed : ℕ → RVec f) (task : Task)
    (user nRec : ℕ) : Option (List (ℕ × ℝ)) :=
  if user < nUsers then
    let cons := consumed user
    let count := nRec + cons.length
    let score : ℕ → ℝ := fun it =>
      let d := rdot (userEmbed user) (itemEmbed it)
      match task with
      | .ranking => sigmoid d
      | .rating => d
    let rank := (sortDesc ((List.range nItemsTotal).map
      (fun it => (it, score it)))).take count
    some ((rank.filter (fun rec => decide (rec.1 ∉ cons))).take nRec)
  else none

/-- `SVD.recommend_user` (svd.py lines 161-180): as `ALS.recommend_user`,
with bias terms in the scores and the global mean added for rating tasks. -/
noncomputable def svdRecommendUser {f : ℕ} (nUsers nItemsTotal : ℕ)
    (consumed : ℕ → List ℕ) (bu bi : ℕ → ℝ) (pu qi : ℕ → RVec f)
    (task : Task) (globalMean : ℝ) (user nRec : ℕ) :
    Option (List (ℕ × ℝ)) :=
  if user < nUsers then
    let cons := consumed user
    let count := nRec + cons.length
    let score : ℕ → ℝ := fun it =>
      let d := bu user + bi it + rdot (pu user) (qi it)
      match task with
      | .rating => d + globalMean
      | .ranking => sigmoid d
    let rank := (sortDesc ((List.range nItemsTotal).map
      (fun it => (it, score it)))).take count
    some ((rank.filter (fun rec => decide (rec.1 ∉ cons))).take nRec)
  else none

/-- **C6 counterexample.**  For the unknown user id 5 of a 1-user model,
`recommend_user` executes a bare `return`, so the result is Python's `None`
rather than an empty list of recommendations. -/
theorem recommend_unknown_user_counterexample :
    alsRecommendUser 1 1 (fun _ => []) puOne puOne Task.ranking 5 3
      ≠ some [] := by
  simp [alsRecommendUser]

/-- **C6 (amended).** For every user id outside the trained vocabulary,
`recommend_user` (both the ALS and the SVD variant) returns `None` — an
empty/absent result, but not an empty list. -/
theorem recommend_unknown_user_none {f : ℕ} (nUsers nItemsTotal : ℕ)
    (consumed : ℕ → List ℕ) (uE iE pu qi : ℕ → RVec f) (bu bi : ℕ → ℝ)
    (task : Task) (gm : ℝ) (user nRec : ℕ) (h : nUsers ≤ user) :
    alsRecommendUser nUsers nItemsTotal consumed uE iE task user nRec = none
      ∧ svdRecommendUser nUsers nItemsTotal consumed bu bi pu qi task gm
          user nRec = none := by
  constructor
  · simp only [alsRecommendUser]
    rw [if_neg (Nat.not_lt.mpr h)]
  · simp only [svdRecommendUser]
    rw [if_neg (Nat.not_lt.mpr h)]

/-- Witness for `recommend_unknown_user_none` at the unknown user id 7. -/
theorem recommend_unknown_user_none_witness :
    alsRecommendUser 1 1 (fun _ => []) puOne qiZero Task.rating 7 3 = none
      ∧ svdRecommendUser 1 1 (fun _ => []) (fun _ => 0) (fun _ => 0)
          puOne qiZero Task.rating 0 7 3 = none :=
  recommend_unknown_user_none 1 1 (fun _ => []) puOne qiZero puOne qiZero
    (fun _ => 0) (fun _ => 0) Task.rating 0 7 3 (by norm_num)

/-! ## Confidence transform in ALS.fit (als.py lines 82-85) -/

/-- A sparse interaction matrix in CSR form: one list of
(column index, stored value) pairs per row. -/
abbrev CSRQ := List (List (ℕ × ℚ))

/-- `user_interaction.T.tocsr()` (als.py line 81): column `c` of the input
becomes row `c`, collecting (row index, value) pairs. -/
def transposeCSR (nCols : ℕ) (m : CSRQ) : CSRQ :=
  (List.range nCols).map (fun c =>
    m.enum.filterMap (fun rrow =>
      (rrow.2.find? (fun p => p.1 == c)).map (fun p => (rrow.1, p.2))))

/-- In-place rescaling of the stored CSR values
(`interaction.data = interaction.data * alpha + 1`). -/
def mapValues (g : ℚ → ℚ) (m : CSRQ) : CSRQ :=
  m.map (List.map (fun p => (p.1, g p.2)))

/-- The confidence transform `data * self.alpha + 1` of `ALS.fit`
(als.py lines 84-85). -/
def confidenceTransform (alpha : ℚ) (c : ℚ) : ℚ := c * alpha + 1

/-- The interaction matrices handed by `ALS.fit` to the per-epoch trainer
(als.py lines 80-99): the by-user matrix and its transpose, both rescaled by
the confidence transform when the task is ranking, untouched for rating. -/
def alsFitMatrices (task : Task) (alpha : ℚ) (nItems : ℕ) (userI : CSRQ) :
    CSRQ × CSRQ :=
  let itemI := transposeCSR nItems userI
  match task with
  | .ranking =>
      (mapValues (confidenceTransform alpha) userI,
        mapValues (confidenceTransform alpha) itemI)
  | .rating => (userI, itemI)

/-- Positional lookup through `mapValues` rewrites each stored value and
nothing else. -/
theorem mapValues_getElem? (g : ℚ → ℚ) (m : CSRQ) (r k : ℕ) :
    (mapValues g m)[r]?.bind (fun row => row[k]?)
      = (m[r]?.bind (fun row => row[k]?)).map
          (fun p => (p.1, g p.2)) := by
  simp only [mapValues, List.getElem?_map]
  cases hm : m[r]? with
  | none => rfl
  | some row => simp [List.getElem?_map]

/-- **C7.** For a ranking-task ALS fit, every stored interaction value
handed to the solver equals exactly `alpha` times the raw count plus 1 —
positionally, `transformed[i] = alpha * raw[i] + 1` with the column index
unchanged — for both the by-user matrix and its transpose; the raw counts
themselves are never passed on. -/
theorem als_confidence_transform (alpha : ℚ) (nItems : ℕ) (userI : CSRQ)
    (r k : ℕ) :
    (((alsFitMatrices Task.ranking alpha nItems userI).1)[r]?.bind
        (fun row => row[k]?)
      = ((userI[r]?.bind (fun row => row[k]?)).map
          (fun p => (p.1, alpha * p.2 + 1))))
    ∧ (((alsFitMatrices Task.ranking alpha nItems userI).2)[r]?.bind
        (fun row => row[k]?)
      = (((transposeCSR nItems userI)[r]?.bind
            (fun row => row[k]?)).map
          (fun p => (p.1, alpha * p.2 + 1)))) := by
  have hfun : (fun p : ℕ × ℚ => (p.1, confidenceTransform alpha p.2))
      = fun p : ℕ × ℚ => (p.1, alpha * p.2 + 1) := by
    funext p
    simp [confidenceTransform, mul_comm]
  constructor
  · show ((mapValues (confidenceTransform alpha) userI))[r]?.bind
        (fun row => row[k]?)
      = (userI[r]?.bind (fun row => row[k]?)).map
          (fun p => (p.1, alpha * p.2 + 1))
    rw [mapValues_getElem?, hfun]
  · show (mapValues (confidenceTransform alpha)
          (transposeCSR nItems userI))[r]?.bind (fun row => row[k]?)
      = ((transposeCSR nItems userI)[r]?.bind
          (fun row => row[k]?)).map (fun p => (p.1, alpha * p.2 + 1))
    rw [mapValues_getElem?, hfun]

end LibRec
